import Mathlib

/-!
# Changepoint analysis pipeline: a verification development

A shallow embedding of the CO2 changepoint-analysis pipeline
(`changepoint_analysis.py`, `main.py`): loading a delimited table,
detecting changepoints in each series, evaluating their significance
with a local two-sample test, collecting evaluation records, and
aggregating per-series summary statistics.

Real-valued samples are embedded as rationals (`ℚ`); Python lists and
NumPy 1-D arrays as `List ℚ`; the 2-D series matrix as `List (List ℚ)`
(one inner list per series row).  Fallible calls (pandas label lookup,
pandas `groupby` on an empty frame) return `Option`.
-/

namespace ChangepointAnalysis

/-- Python slice `s[a:b]` for already-clamped non-negative bounds:
the elements at indices `a, a+1, …, b-1`, truncated at the list's end. -/
def pySlice (s : List ℚ) (a b : ℕ) : List ℚ := (s.take b).drop a

/-- Arithmetic mean of a list of samples (`0` on the empty list, which the
pipeline never hits on a segment it scores). -/
def mean (xs : List ℚ) : ℚ := xs.sum / xs.length

/-! ## Lexicographic string order

`pandas.DataFrame.groupby` (with its default `sort=True`) orders group keys
by Python string comparison, which is lexicographic on code points.  We
embed that order explicitly so that it evaluates inside the kernel. -/

/-- Lexicographic order on character lists by code point, modelling Python
string comparison. -/
def lexLeB : List Char → List Char → Bool
  | [], _ => true
  | _ :: _, [] => false
  | a :: as, b :: bs =>
    if a.toNat < b.toNat then true
    else if b.toNat < a.toNat then false
    else lexLeB as bs

/-- Python string order `a <= b` (lexicographic on code points). -/
def strLe (a b : String) : Prop := lexLeB a.data b.data = true

instance : DecidableRel strLe := fun _ _ => instDecidableEqBool _ _

/-! ## Changepoint detector

`detect_changepoints` in the source calls the external `ruptures` library:
`rpt.Window(width=5, model="l2").fit(series).predict(n_bkps=K)` and then
drops the final entry (the end-of-series sentinel).  The library itself is
not part of this repository, so the window detector below is *modelled from
the spec*: a sliding window of constant width 5 scores each admissible
split point by the reduction in L2 cost (sum of squared residuals from the
segment mean) obtained by splitting the window there; the top-K scoring
splits are selected, sorted in increasing order, and the series length is
appended as the terminal split.  -/

/-- L2 cost of a segment: sum of squared deviations from the segment mean.
Modelled from the spec: "cost model = sum of squared residuals from segment
mean". -/
def segCost (xs : List ℚ) : ℚ := (xs.map (fun x => (x - mean xs) ^ 2)).sum

/-- L2 cost of the sub-signal `s[a:b]`. -/
def winCost (s : List ℚ) (a b : ℕ) : ℚ := segCost (pySlice s a b)

/-- Modelled from the spec: the sliding-window score of candidate split
`k` — the cost reduction obtained by splitting the width-5 window centred
at `k` (half-width 2 on each side) at `k`. -/
def gain (s : List ℚ) (k : ℕ) : ℚ :=
  winCost s (k - 2) (k + 2) - (winCost s (k - 2) k + winCost s k (k + 2))

/-- Modelled from the spec: the admissible candidate split points for a
series of length `L` under the constant window width 5 — indices far enough
from both boundaries for the window to fit. -/
def cands (L : ℕ) : List ℕ :=
  (List.range L).filter (fun k => 2 ≤ k && k + 2 ≤ L)

/-- Order on scored candidates `(gain, index)`: by gain, ties by index.
Candidates are ranked by this order and the top `K` are kept. -/
def pairLe (p q : ℚ × ℕ) : Prop :=
  p.1 < q.1 ∨ (p.1 = q.1 ∧ p.2 ≤ q.2)

instance : DecidableRel pairLe := fun p q => by unfold pairLe; infer_instance

/-- The candidates of `s`, paired with their scores and ranked by
increasing score. -/
def rankedSplits (s : List ℚ) : List (ℚ × ℕ) :=
  List.insertionSort pairLe ((cands s.length).map (fun k => (gain s k, k)))

/-- The indices of the `K` best-scoring candidate splits. -/
def topSplits (s : List ℚ) (K : ℕ) : List ℕ :=
  (((rankedSplits s).drop ((rankedSplits s).length - K)).map Prod.snd)

/-- Modelled from the spec: the window method's `predict` — the top-K
splits in increasing order, followed by the terminal split equal to the
series length. -/
def window_predict (s : List ℚ) (K : ℕ) : List ℕ :=
  List.insertionSort (· ≤ ·) (topSplits s K) ++ [s.length]

/-- `detect_changepoints` (source: `changepoint_analysis.py`): run the
window detection and remove the last changepoint (end of series).  The
source's default `n_changepoints=5` is passed explicitly by callers
below. -/
def detect_changepoints (series : List ℚ) (n_changepoints : ℕ) : List ℕ :=
  (window_predict series n_changepoints).dropLast

/-! ## Significance evaluator

`evaluate_changepoints` slices, for each changepoint `cp`, the window
`series[max(0, cp-window):cp]` before it and `series[cp:min(len(series),
cp+window)]` after it, and hands the two slices to the external
`scipy.stats.ttest_ind`.  The t-test is external to the repository, so the
embedding is parametric in the test function `tt`; `scipy` returns a
(t-statistic, p-value) pair of floats (NaN on degenerate input) and never
raises on 1-D numeric input, so `tt` is total.  In `ℕ`, truncated
subtraction `cp - window` implements the source's `max(0, cp - window)`. -/

/-- `evaluate_changepoints` (source: `changepoint_analysis.py`): the
`scores` list built by the source's loop, appending the test result of the
two clamped windows for each changepoint in turn. -/
def evaluate_changepoints {α : Type} (tt : List ℚ → List ℚ → α)
    (series : List ℚ) (changepoints : List ℕ) (window : ℕ) : List α :=
  changepoints.foldl
    (fun scores cp =>
      scores ++ [tt (pySlice series (cp - window) cp)
                    (pySlice series cp (min series.length (cp + window)))])
    []

/-! ## Analysis orchestrator

`analyze_changepoints` loops over the series (rows of the data matrix),
detects each series' changepoints with the default count 5, evaluates them
with the default window 3, and appends one record per changepoint carrying
the 1-based series label `p{i+1}`, the 1-based changepoint ordinal, and the
time/concentration values at the changepoint index. -/

/-- One evaluation record, as built by `analyze_changepoints` in the
source (a dict with keys Series, Changepoint, Time, CO2_Concentration,
t-statistic, p-value). -/
structure Record where
  Series : String
  Changepoint : ℕ
  Time : ℚ
  CO2_Concentration : ℚ
  t_statistic : ℚ
  p_value : ℚ

/-- The records the source's inner loop appends for series number `i`
(0-based): one per changepoint, in changepoint order.  `getD … 0` embeds
NumPy indexing `time[cp]`, `series[cp]`; the detector keeps every returned
index below the series length, so the default is never taken. -/
def seriesRecords (tt : List ℚ → List ℚ → ℚ × ℚ)
    (time series : List ℚ) (i : ℕ) : List Record :=
  let changepoints := detect_changepoints series 5
  let scores := evaluate_changepoints tt series changepoints 3
  (changepoints.zip scores).enum.map (fun jp =>
    { Series := "p" ++ toString (i + 1)
      Changepoint := jp.1 + 1
      Time := time.getD jp.2.1 0
      CO2_Concentration := series.getD jp.2.1 0
      t_statistic := jp.2.2.1
      p_value := jp.2.2.2 })

/-- `analyze_changepoints` (source: `changepoint_analysis.py`): all
series' records, concatenated in input series order.  Parametric in the
external test function `tt` (`scipy.stats.ttest_ind`). -/
def analyze_changepoints (tt : List ℚ → List ℚ → ℚ × ℚ)
    (time : List ℚ) (series_data : List (List ℚ)) : List Record :=
  series_data.enum.flatMap (fun p => seriesRecords tt time p.2 p.1)

/-! ## Summary generator

`generate_summary` builds `pd.DataFrame(results).groupby('Series')` and
aggregates mean and std of the four numeric columns, then flattens the
column multi-index to `Time_mean, Time_std, …`.  Two pieces of pandas
behaviour are part of the embedding:
* `groupby` with its default `sort=True` orders the groups by the key
  string order (`strLe`), not by first appearance;
* on the empty record list `pd.DataFrame([])` has no columns at all, so
  `groupby('Series')` raises `KeyError` — modelled as `none`.
The sample standard deviation (`ddof=1`) of a group is the square root of
the sample variance, irrational in general; the embedding carries the
variance (the std's square), which is `none` exactly when pandas' std is
NaN (group of size 1). -/

/-- Sample variance (ddof = 1) of a list, the square of pandas' sample
std; `none` models the NaN that pandas produces for groups of size ≤ 1. -/
def sampleStdSq (xs : List ℚ) : Option ℚ :=
  if xs.length ≤ 1 then none
  else some ((xs.map (fun x => (x - mean xs) ^ 2)).sum / (xs.length - 1))

/-- One row of the summary frame; field names follow the source's
flattened column names (with the pandas index `Series` carried along). -/
structure SummaryRow where
  Series : String
  Time_mean : ℚ
  Time_std : Option ℚ
  CO2_Concentration_mean : ℚ
  CO2_Concentration_std : Option ℚ
  t_statistic_mean : ℚ
  t_statistic_std : Option ℚ
  p_value_mean : ℚ
  p_value_std : Option ℚ

/-- The group keys of `groupby('Series')`, in the order pandas emits them:
distinct labels sorted by string order. -/
def sortedLabels (results : List Record) : List String :=
  List.insertionSort strLe ((results.map (fun r => r.Series)).dedup)

/-- The group of records carrying label `k`, in input order. -/
def groupOf (results : List Record) (k : String) : List Record :=
  results.filter (fun r => r.Series == k)

/-- The aggregated summary row of one group. -/
def summarize (k : String) (g : List Record) : SummaryRow :=
  { Series := k
    Time_mean := mean (g.map (fun r => r.Time))
    Time_std := sampleStdSq (g.map (fun r => r.Time))
    CO2_Concentration_mean := mean (g.map (fun r => r.CO2_Concentration))
    CO2_Concentration_std := sampleStdSq (g.map (fun r => r.CO2_Concentration))
    t_statistic_mean := mean (g.map (fun r => r.t_statistic))
    t_statistic_std := sampleStdSq (g.map (fun r => r.t_statistic))
    p_value_mean := mean (g.map (fun r => r.p_value))
    p_value_std := sampleStdSq (g.map (fun r => r.p_value)) }

/-- `generate_summary` (source: `changepoint_analysis.py`): group the
records by series label and aggregate mean/std of the four numeric
fields.  `none` models the `KeyError` pandas raises when the record list
is empty. -/
def generate_summary (results : List Record) : Option (List SummaryRow) :=
  if results.isEmpty then none
  else some ((sortedLabels results).map (fun k => summarize k (groupOf results k)))

/-! ## Data loader

`load_data` reads the CSV into a DataFrame, takes `data['t']` (label
lookup — `KeyError`, i.e. `none`, when no column is named `t`) as the time
vector, and takes the series matrix as `data.iloc[:, 1:].values.T` — all
columns from *position* 1 on, transposed so each series is a row. -/

/-- An input table: column headers and the columns themselves (one inner
list per column, left to right). -/
structure Table where
  headers : List String
  cols : List (List ℚ)

/-- `load_data` (source: `changepoint_analysis.py`): the `t` column by
label, and the columns from position 1 on as series rows. -/
def load_data (tbl : Table) : Option (List ℚ × List (List ℚ)) :=
  match tbl.headers.findIdx? (fun h => h == "t") with
  | none => none
  | some i => some (tbl.cols.getD i [], tbl.cols.drop 1)

/-- Reference reading of the spec's words: the time vector is the column
*named* `t`, wherever it appears. -/
def specTime (tbl : Table) : Option (List ℚ) :=
  ((tbl.headers.zip tbl.cols).find? (fun hc => hc.1 == "t")).map Prod.snd

/-- Reference reading of the spec's words: the i-th series is the i-th
non-`t` column in left-to-right order, regardless of where the `t` column
appears. -/
def specSeries (tbl : Table) : List (List ℚ) :=
  ((tbl.headers.zip tbl.cols).filter (fun hc => hc.1 != "t")).map Prod.snd

/-! ## Pipeline environment

The loaded data that every stage reads; mirroring `main.py`, which passes
the same `time` and `series_data` arrays to each stage in turn and
re-detects the changepoints for plotting after the analysis has run. -/

/-- The loaded inputs shared by all pipeline stages. -/
structure Env where
  time : List ℚ
  series_data : List (List ℚ)

/-- The analysis portion of `main.py` (plot rendering and file writes
aside): analyze, re-detect the changepoints per series for the results
plot, and summarize.  The environment is returned alongside the outputs to
state what the run leaves untouched. -/
def runPipeline (tt : List ℚ → List ℚ → ℚ × ℚ) (env : Env) :
    Env × List Record × List (List ℕ) × Option (List SummaryRow) :=
  let results := analyze_changepoints tt env.time env.series_data
  let all_changepoints := env.series_data.map (fun s => detect_changepoints s 5)
  let summary := generate_summary results
  (env, results, all_changepoints, summary)

/-! ## Concrete inputs used by witnesses and counterexamples -/

/-- A length-10 series with a level shift, used to instantiate the
detector contract. -/
def seriesEx : List ℚ := [0, 0, 0, 0, 0, 10, 10, 10, 10, 10]

/-- A trivial stand-in for the external test function. -/
def ttEx : List ℚ → List ℚ → ℚ × ℚ := fun _ _ => (0, 0)

/-- A single evaluation record. -/
def recEx : Record :=
  { Series := "p1", Changepoint := 1, Time := 5, CO2_Concentration := 6,
    t_statistic := 7, p_value := 8 }

/-- A record list with one record per label `p1 … p10`, in input
(scenario) order. -/
def recsTen : List Record :=
  ["p1", "p2", "p3", "p4", "p5", "p6", "p7", "p8", "p9", "p10"].map
    (fun k => { Series := k, Changepoint := 1, Time := 0,
                CO2_Concentration := 0, t_statistic := 0, p_value := 0 })

/-- A table whose `t` column is *not* the first column. -/
def tblSwapped : Table := { headers := ["a", "t"], cols := [[1], [2]] }

/-- A table whose `t` column is the first column. -/
def tblFirst : Table := { headers := ["t", "a"], cols := [[5], [7]] }

/-! # Theorems -/

/-! ## The evaluator's loop as a map over the changepoints -/

/-- The source's append-in-a-loop accumulator pattern, as a map. -/
theorem foldl_append_singleton {α β : Type} (f : α → β) (l : List α)
    (acc : List β) :
    l.foldl (fun out x => out ++ [f x]) acc = acc ++ l.map f := by
  induction l generalizing acc with
  | nil => simp
  | cons x xs ih => simp [ih, List.append_assoc]

/-- `evaluate_changepoints` scores exactly the clamped windows of each
changepoint, in order. -/
theorem evaluate_changepoints_eq_map {α : Type} (tt : List ℚ → List ℚ → α)
    (series : List ℚ) (changepoints : List ℕ) (window : ℕ) :
    evaluate_changepoints tt series changepoints window =
      changepoints.map (fun cp =>
        tt (pySlice series (cp - window) cp)
           (pySlice series cp (min series.length (cp + window)))) := by
  unfold evaluate_changepoints
  rw [foldl_append_singleton]
  simp

/-- One score per changepoint. -/
theorem evaluate_changepoints_length {α : Type} (tt : List ℚ → List ℚ → α)
    (series : List ℚ) (changepoints : List ℕ) (window : ℕ) :
    (evaluate_changepoints tt series changepoints window).length =
      changepoints.length := by
  rw [evaluate_changepoints_eq_map, List.length_map]

/-- Elementwise description of a Python slice. -/
theorem pySlice_getElem (s : List ℚ) (a b i : ℕ) :
    (pySlice s a b)[i]? = if a + i < b then s[a + i]? else none := by
  unfold pySlice
  rw [List.getElem?_drop, List.getElem?_take]

/-- C2: for every series, changepoint list and window size,
`evaluate_changepoints` returns one test result per changepoint, in input
order; the result for `cp` is the test applied to exactly the up-to-`w`
elements at indices `max(0, cp-w) … cp-1` and the up-to-`w` elements at
indices `cp … min(L, cp+w)-1` (the slices being characterized elementwise
by `pySlice_getElem`). -/
theorem evaluate_changepoints_windows {α : Type} (tt : List ℚ → List ℚ → α)
    (series : List ℚ) (changepoints : List ℕ) (window : ℕ) :
    evaluate_changepoints tt series changepoints window =
      changepoints.map (fun cp =>
        tt (pySlice series (cp - window) cp)
           (pySlice series cp (min series.length (cp + window)))) ∧
    (evaluate_changepoints tt series changepoints window).length =
      changepoints.length ∧
    (∀ a b i, (pySlice series a b)[i]? = if a + i < b then series[a + i]? else none) := by
  exact ⟨evaluate_changepoints_eq_map tt series changepoints window,
    evaluate_changepoints_length tt series changepoints window,
    fun a b i => pySlice_getElem series a b i⟩

/-! ## Boundary changepoints -/

/-- C8: at a boundary changepoint (`cp = 0` or `cp = L-1`) the evaluator
does not fail: it still returns exactly one test-result pair, obtained
from the clamped windows, which have silently shrunk — the before-window
is empty at `cp = 0`, and the after-window has at most one sample at
`cp = L-1`. -/
theorem evaluate_changepoints_boundary {α : Type} (tt : List ℚ → List ℚ → α)
    (series : List ℚ) (cp window : ℕ)
    (h : cp = 0 ∨ cp + 1 = series.length) :
    evaluate_changepoints tt series [cp] window =
      [tt (pySlice series (cp - window) cp)
          (pySlice series cp (min series.length (cp + window)))] ∧
    (pySlice series (cp - window) cp = [] ∨
      (pySlice series cp (min series.length (cp + window))).length ≤ 1) := by
  refine ⟨by rw [evaluate_changepoints_eq_map]; rfl, ?_⟩
  rcases h with h | h
  · left
    subst h
    unfold pySlice
    simp
  · right
    unfold pySlice
    rw [List.length_drop, List.length_take]
    omega

/-- Witness for `evaluate_changepoints_boundary` at `cp = 0` on a
three-sample series. -/
theorem evaluate_changepoints_boundary_witness :
    ((0 : ℕ) = 0 ∨ (0 : ℕ) + 1 = ([1, 2, 3] : List ℚ).length) ∧
    (evaluate_changepoints ttEx [1, 2, 3] [0] 3 =
      [ttEx (pySlice [1, 2, 3] (0 - 3) 0)
            (pySlice [1, 2, 3] 0 (min ([1, 2, 3] : List ℚ).length (0 + 3)))] ∧
    (pySlice [1, 2, 3] (0 - 3) 0 = [] ∨
      (pySlice [1, 2, 3] 0 (min ([1, 2, 3] : List ℚ).length (0 + 3))).length ≤ 1)) :=
  ⟨Or.inl rfl, evaluate_changepoints_boundary ttEx [1, 2, 3] 0 3 (Or.inl rfl)⟩

/-! ## Determinism of the detector -/

/-- C7: the detector is deterministic — two calls on identical series and
identical changepoint counts return identical index sequences (the
embedding of the algorithm is a pure function with no randomness). -/
theorem detect_changepoints_deterministic (s₁ s₂ : List ℚ) (K₁ K₂ : ℕ)
    (hs : s₁ = s₂) (hK : K₁ = K₂) :
    detect_changepoints s₁ K₁ = detect_changepoints s₂ K₂ := by
  rw [hs, hK]

/-- Witness for `detect_changepoints_deterministic` on a concrete series. -/
theorem detect_changepoints_deterministic_witness :
    seriesEx = seriesEx ∧ (5 : ℕ) = 5 ∧
      detect_changepoints seriesEx 5 = detect_changepoints seriesEx 5 :=
  ⟨rfl, rfl, detect_changepoints_deterministic seriesEx seriesEx 5 5 rfl rfl⟩

/-! ## The pipeline mutates nothing -/

/-- C9: the pipeline run returns the loaded time vector and series data
unchanged, and every output — the evaluation records, the re-detected
changepoints, the summary — is the pure function of those same unchanged
inputs.  (The embedding is pure because the source only reads its
arguments: slices copy, and records are appended to fresh lists.) -/
theorem runPipeline_frame (tt : List ℚ → List ℚ → ℚ × ℚ) (env : Env) :
    (runPipeline tt env).1 = env ∧
    (runPipeline tt env).2.1 =
      analyze_changepoints tt env.time env.series_data ∧
    (runPipeline tt env).2.2.1 =
      env.series_data.map (fun s => detect_changepoints s 5) ∧
    (runPipeline tt env).2.2.2 =
      generate_summary (analyze_changepoints tt env.time env.series_data) :=
  ⟨rfl, rfl, rfl, rfl⟩

/-! ## The summary on the empty record list -/

/-- C10: on the empty record list `generate_summary` fails (pandas:
`pd.DataFrame([])` has no columns, so `groupby('Series')` raises
`KeyError`, embedded as `none`); on any non-empty list of records — which,
being `Record`s, carry the `Series` field and the four numeric fields — it
succeeds. -/
theorem generate_summary_empty_fails :
    generate_summary [] = none ∧
      ∀ (r : Record) (rs : List Record),
        (generate_summary (r :: rs)).isSome := by
  refine ⟨rfl, fun r rs => ?_⟩
  simp [generate_summary]

/-! ## Singleton groups in the summary -/

/-- The mean of a one-element group is the element itself. -/
theorem mean_singleton (x : ℚ) : mean [x] = x := by
  simp [mean]

/-- The sample std (ddof = 1) of a one-element group is NaN. -/
theorem sampleStdSq_singleton (x : ℚ) : sampleStdSq [x] = none := by
  simp [sampleStdSq]

/-- The group keys are exactly the labels occurring in the records. -/
theorem mem_sortedLabels {results : List Record} {k : String} :
    k ∈ sortedLabels results ↔ k ∈ results.map (fun r => r.Series) := by
  unfold sortedLabels
  rw [(List.perm_insertionSort strLe _).mem_iff, List.mem_dedup]

/-- C5: a group with exactly one record yields one summary row whose four
std columns are all NaN (`none`), not zero, and whose four mean columns
equal the single record's fields exactly. -/
theorem generate_summary_singleton_group (results : List Record) (k : String)
    (r : Record) (hne : results ≠ []) (hk : groupOf results k = [r]) :
    ∃ rows, generate_summary results = some rows ∧
      summarize k [r] ∈ rows ∧
      (summarize k [r]).Series = k ∧
      (summarize k [r]).Time_mean = r.Time ∧
      (summarize k [r]).Time_std = none ∧
      (summarize k [r]).CO2_Concentration_mean = r.CO2_Concentration ∧
      (summarize k [r]).CO2_Concentration_std = none ∧
      (summarize k [r]).t_statistic_mean = r.t_statistic ∧
      (summarize k [r]).t_statistic_std = none ∧
      (summarize k [r]).p_value_mean = r.p_value ∧
      (summarize k [r]).p_value_std = none := by
  have hrg : r ∈ groupOf results k := by
    rw [hk]; exact List.mem_singleton_self r
  have hrk : (r.Series == k) = true := (List.mem_filter.mp hrg).2
  have hmem : k ∈ sortedLabels results := by
    rw [mem_sortedLabels, List.mem_map]
    exact ⟨r, (List.mem_filter.mp hrg).1, by simpa using hrk⟩
  have h0 : results.isEmpty = false := by
    cases results with
    | nil => exact absurd rfl hne
    | cons a l => rfl
  refine ⟨(sortedLabels results).map (fun k => summarize k (groupOf results k)),
    ?_, ?_, rfl, ?_, ?_, ?_, ?_, ?_, ?_, ?_, ?_⟩
  · unfold generate_summary
    rw [h0]
    rfl
  · rw [← hk]
    exact List.mem_map_of_mem _ hmem
  · simp [summarize, mean_singleton]
  · simp [summarize, sampleStdSq_singleton]
  · simp [summarize, mean_singleton]
  · simp [summarize, sampleStdSq_singleton]
  · simp [summarize, mean_singleton]
  · simp [summarize, sampleStdSq_singleton]
  · simp [summarize, mean_singleton]
  · simp [summarize, sampleStdSq_singleton]

/-- Witness for `generate_summary_singleton_group` on a one-record list. -/
theorem generate_summary_singleton_group_witness :
    (([recEx] : List Record) ≠ []) ∧ groupOf [recEx] "p1" = [recEx] ∧
    (∃ rows, generate_summary [recEx] = some rows ∧
      summarize "p1" [recEx] ∈ rows ∧
      (summarize "p1" [recEx]).Series = "p1" ∧
      (summarize "p1" [recEx]).Time_mean = recEx.Time ∧
      (summarize "p1" [recEx]).Time_std = none ∧
      (summarize "p1" [recEx]).CO2_Concentration_mean = recEx.CO2_Concentration ∧
      (summarize "p1" [recEx]).CO2_Concentration_std = none ∧
      (summarize "p1" [recEx]).t_statistic_mean = recEx.t_statistic ∧
      (summarize "p1" [recEx]).t_statistic_std = none ∧
      (summarize "p1" [recEx]).p_value_mean = recEx.p_value ∧
      (summarize "p1" [recEx]).p_value_std = none) :=
  ⟨by simp, rfl, generate_summary_singleton_group [recEx] "p1" recEx (by simp) rfl⟩

/-! ## Ordering of the summary rows -/

/-- `lexLeB` is total. -/
theorem lexLeB_total : ∀ as bs : List Char,
    lexLeB as bs = true ∨ lexLeB bs as = true := by
  intro as
  induction as with
  | nil => intro bs; left; rfl
  | cons a as ih =>
    intro bs
    cases bs with
    | nil => right; rfl
    | cons b bs =>
      by_cases h1 : a.toNat < b.toNat
      · left; simp [lexLeB, h1]
      · by_cases h2 : b.toNat < a.toNat
        · right; simp [lexLeB, h2]
        · rcases ih bs with h | h
          · left; simp [lexLeB, h1, h2, h]
          · right; simp [lexLeB, h1, h2, h]

/-- `lexLeB` is transitive. -/
theorem lexLeB_trans : ∀ as bs cs : List Char,
    lexLeB as bs = true → lexLeB bs cs = true → lexLeB as cs = true := by
  intro as
  induction as with
  | nil => intro bs cs _ _; rfl
  | cons a as ih =>
    intro bs cs hab hbc
    cases bs with
    | nil => simp [lexLeB] at hab
    | cons b bs =>
      cases cs with
      | nil => simp [lexLeB] at hbc
      | cons c cs =>
        by_cases h1 : a.toNat < b.toNat
        · by_cases h2 : b.toNat < c.toNat
          · simp [lexLeB, show a.toNat < c.toNat by omega]
          · by_cases h3 : c.toNat < b.toNat
            · simp [lexLeB, h2, h3] at hbc
            · simp [lexLeB, show a.toNat < c.toNat by omega]
        · by_cases h4 : b.toNat < a.toNat
          · simp [lexLeB, h1, h4] at hab
          · by_cases h2 : b.toNat < c.toNat
            · simp [lexLeB, show a.toNat < c.toNat by omega]
            · by_cases h3 : c.toNat < b.toNat
              · simp [lexLeB, h2, h3] at hbc
              · have hac1 : ¬ a.toNat < c.toNat := by omega
                have hac2 : ¬ c.toNat < a.toNat := by omega
                simp [lexLeB, h1, h4] at hab
                simp [lexLeB, h2, h3] at hbc
                simp [lexLeB, hac1, hac2, ih bs cs hab hbc]

instance : IsTotal String strLe := ⟨fun a b => lexLeB_total a.data b.data⟩

instance : IsTrans String strLe :=
  ⟨fun a b c hab hbc => lexLeB_trans a.data b.data c.data hab hbc⟩

/-- C4 counterexample: for the ten labels `p1 … p10`, one record each and
given in input (scenario) order, the summary emits its rows in
lexicographic label order `p1, p10, p2, …, p9`, not in the input order
`p1, p2, …, p10` the claim requires. -/
theorem generate_summary_order_counterexample :
    (generate_summary recsTen).map (fun rows => rows.map (fun row => row.Series)) =
      some ["p1", "p10", "p2", "p3", "p4", "p5", "p6", "p7", "p8", "p9"] ∧
    (["p1", "p10", "p2", "p3", "p4", "p5", "p6", "p7", "p8", "p9"] : List String) ≠
      recsTen.map (fun r => r.Series) ∧
    recsTen.map (fun r => r.Series) =
      ["p1", "p2", "p3", "p4", "p5", "p6", "p7", "p8", "p9", "p10"] := by
  refine ⟨by decide, by decide, by decide⟩

/-- C4 (amended): the summary has one row per distinct series label and
emits its rows sorted lexicographically by label (pandas `groupby` sorts
its keys); this coincides with input order only while the input labels are
already lexicographically sorted — for `p1 … pN` that holds exactly when
`N ≤ 9`. -/
theorem generate_summary_rows_sorted (results : List Record)
    (hne : results ≠ []) :
    ∃ rows, generate_summary results = some rows ∧
      (rows.map (fun row => row.Series)).Sorted strLe ∧
      (rows.map (fun row => row.Series)).Nodup ∧
      (∀ k, k ∈ rows.map (fun row => row.Series) ↔
        k ∈ results.map (fun r => r.Series)) := by
  have h0 : results.isEmpty = false := by
    cases results with
    | nil => exact absurd rfl hne
    | cons a l => rfl
  refine ⟨(sortedLabels results).map (fun k => summarize k (groupOf results k)),
    ?_, ?_, ?_, ?_⟩
  · unfold generate_summary
    rw [h0]
    rfl
  · rw [List.map_map]
    have : ((fun row => SummaryRow.Series row) ∘
        fun k => summarize k (groupOf results k)) = id := by
      funext k; rfl
    rw [this, List.map_id]
    exact List.sorted_insertionSort strLe _
  · rw [List.map_map]
    have : ((fun row => SummaryRow.Series row) ∘
        fun k => summarize k (groupOf results k)) = id := by
      funext k; rfl
    rw [this, List.map_id]
    exact ((List.perm_insertionSort strLe _).symm).nodup (List.nodup_dedup _)
  · intro k
    rw [List.map_map]
    have : ((fun row => SummaryRow.Series row) ∘
        fun k => summarize k (groupOf results k)) = id := by
      funext k; rfl
    rw [this, List.map_id]
    exact mem_sortedLabels

/-- Witness for `generate_summary_rows_sorted` on the ten-record list. -/
theorem generate_summary_rows_sorted_witness :
    (recsTen ≠ []) ∧
    (∃ rows, generate_summary recsTen = some rows ∧
      (rows.map (fun row => row.Series)).Sorted strLe ∧
      (rows.map (fun row => row.Series)).Nodup ∧
      (∀ k, k ∈ rows.map (fun row => row.Series) ↔
        k ∈ recsTen.map (fun r => r.Series))) :=
  ⟨by simp [recsTen], generate_summary_rows_sorted recsTen (by simp [recsTen])⟩

/-! ## The loader and the position of the `t` column -/

/-- C3 counterexample: on a table whose `t` column is second, `load_data`
still drops the *first* column positionally, so the series matrix contains
the `t` column itself instead of the non-`t` column. -/
theorem load_data_position_counterexample :
    load_data tblSwapped = some ([2], [[2]]) ∧
    specSeries tblSwapped = [[1]] ∧
    (load_data tblSwapped).map (fun p => p.2) ≠ some (specSeries tblSwapped) := by
  refine ⟨rfl, rfl, ?_⟩
  intro h
  rw [show load_data tblSwapped = some ([2], [[2]]) from rfl,
    show specSeries tblSwapped = [[1]] from rfl] at h
  simp at h

/-- C3 (amended): *when the `t` column is the table's first column* (and
is the only column so named), `load_data` returns the `t` column as the
time vector and the remaining columns, in left-to-right order, as the
series rows — which are then exactly the non-`t` columns. -/
theorem load_data_t_first_column (tbl : Table)
    (hlen : tbl.headers.length = tbl.cols.length)
    (hhead : tbl.headers.head? = some "t")
    (huniq : "t" ∉ tbl.headers.tail) :
    ∃ tv, specTime tbl = some tv ∧
      load_data tbl = some (tv, specSeries tbl) ∧
      specSeries tbl = tbl.cols.drop 1 := by
  obtain ⟨hdrs, cols⟩ := tbl
  cases hdrs with
  | nil => simp at hhead
  | cons h0 tl =>
    have h0t : h0 = "t" := by simpa using hhead
    subst h0t
    cases cols with
    | nil => simp at hlen
    | cons c cs =>
      have hcl : tl.length = cs.length := by simpa using hlen
      have htl : ∀ x ∈ tl, x ≠ "t" := by
        intro x hx hxe
        subst hxe
        exact huniq (by simpa using hx)
      have hfilter : ((tl.zip cs).filter (fun hc => hc.1 != "t")) = tl.zip cs := by
        rw [List.filter_eq_self]
        intro p hp
        have hmem := (List.of_mem_zip hp).1
        simpa [bne_iff_ne] using htl p.1 hmem
      have hspec : specSeries ⟨"t" :: tl, c :: cs⟩ = cs := by
        unfold specSeries
        simp only [List.zip_cons_cons, List.filter_cons]
        simp only [bne_self_eq_false, Bool.false_eq_true, if_false]
        rw [hfilter]
        exact List.map_snd_zip tl cs (le_of_eq hcl.symm)
      refine ⟨c, ?_, ?_, by simpa using hspec⟩
      · unfold specTime
        simp [List.find?]
      · unfold load_data
        simp only [List.findIdx?_cons, beq_self_eq_true, if_true]
        rw [hspec]
        rfl

/-- Witness for `load_data_t_first_column` on a two-column table with `t`
first. -/
theorem load_data_t_first_column_witness :
    tblFirst.headers.length = tblFirst.cols.length ∧
    tblFirst.headers.head? = some "t" ∧
    "t" ∉ tblFirst.headers.tail ∧
    (∃ tv, specTime tblFirst = some tv ∧
      load_data tblFirst = some (tv, specSeries tblFirst) ∧
      specSeries tblFirst = tblFirst.cols.drop 1) :=
  ⟨rfl, rfl, by decide,
    load_data_t_first_column tblFirst rfl rfl (by decide)⟩

/-! ## Shape of the evaluation records -/

/-- `getD` at an in-range index is plain indexing. -/
theorem getD_of_lt {α : Type} (l : List α) (j : ℕ) (d : α) (h : j < l.length) :
    l.getD j d = l[j] := by
  rw [List.getD_eq_getElem?_getD, List.getElem?_eq_getElem h]
  rfl

/-- C6: `analyze_changepoints` emits the per-series record blocks in input
series order, and the block of the series at (0-based) position `i` has
exactly one record per detected changepoint: the `j`-th record carries the
1-based series label `p{i+1}`, the 1-based ordinal `j+1`, the time and
concentration values at the `j`-th changepoint index, and the `j`-th test
result. -/
theorem analyze_changepoints_records (tt : List ℚ → List ℚ → ℚ × ℚ)
    (time : List ℚ) (series_data : List (List ℚ)) (i : ℕ) (s : List ℚ)
    (hs : series_data[i]? = some s) :
    analyze_changepoints tt time series_data =
      (series_data.enum.map (fun p => seriesRecords tt time p.2 p.1)).flatten ∧
    series_data.enum[i]? = some (i, s) ∧
    (seriesRecords tt time s i).length = (detect_changepoints s 5).length ∧
    (∀ j, j < (detect_changepoints s 5).length →
      (seriesRecords tt time s i)[j]? =
        some { Series := "p" ++ toString (i + 1)
               Changepoint := j + 1
               Time := time.getD ((detect_changepoints s 5).getD j 0) 0
               CO2_Concentration := s.getD ((detect_changepoints s 5).getD j 0) 0
               t_statistic :=
                 ((evaluate_changepoints tt s (detect_changepoints s 5) 3).getD j (0, 0)).1
               p_value :=
                 ((evaluate_changepoints tt s (detect_changepoints s 5) 3).getD j (0, 0)).2 }) := by
  obtain ⟨hi, hsi⟩ := List.getElem?_eq_some.mp hs
  have hscore : (evaluate_changepoints tt s (detect_changepoints s 5) 3).length =
      (detect_changepoints s 5).length :=
    evaluate_changepoints_length tt s (detect_changepoints s 5) 3
  have hzlen : ((detect_changepoints s 5).zip
      (evaluate_changepoints tt s (detect_changepoints s 5) 3)).length =
      (detect_changepoints s 5).length := by
    rw [List.length_zip, hscore, min_self]
  refine ⟨List.flatMap_def _ _, ?_, ?_, ?_⟩
  · rw [List.getElem?_eq_getElem (by rw [List.enum_length]; exact hi),
      List.getElem_enum, hsi]
  · simp only [seriesRecords, List.length_map, List.enum_length]
    exact hzlen
  · intro j hj
    have hjr : j < (seriesRecords tt time s i).length := by
      simp only [seriesRecords, List.length_map, List.enum_length]
      omega
    rw [List.getElem?_eq_getElem hjr]
    have hje : j < ((detect_changepoints s 5).zip
        (evaluate_changepoints tt s (detect_changepoints s 5) 3)).enum.length := by
      rw [List.enum_length]; omega
    simp only [seriesRecords, List.getElem_map, List.getElem_enum, List.getElem_zip]
    have hcp := getD_of_lt (detect_changepoints s 5) j 0 hj
    have hsc := getD_of_lt (evaluate_changepoints tt s (detect_changepoints s 5) 3)
      j (0, 0) (by omega)
    rw [hcp, hsc]

/-- Witness for `analyze_changepoints_records` on a one-series dataset. -/
theorem analyze_changepoints_records_witness :
    ([seriesEx] : List (List ℚ))[0]? = some seriesEx ∧
    (analyze_changepoints ttEx seriesEx [seriesEx] =
      (([seriesEx] : List (List ℚ)).enum.map
        (fun p => seriesRecords ttEx seriesEx p.2 p.1)).flatten ∧
    ([seriesEx] : List (List ℚ)).enum[0]? = some (0, seriesEx) ∧
    (seriesRecords ttEx seriesEx seriesEx 0).length =
      (detect_changepoints seriesEx 5).length ∧
    (∀ j, j < (detect_changepoints seriesEx 5).length →
      (seriesRecords ttEx seriesEx seriesEx 0)[j]? =
        some { Series := "p" ++ toString (0 + 1)
               Changepoint := j + 1
               Time := seriesEx.getD ((detect_changepoints seriesEx 5).getD j 0) 0
               CO2_Concentration :=
                 seriesEx.getD ((detect_changepoints seriesEx 5).getD j 0) 0
               t_statistic :=
                 ((evaluate_changepoints ttEx seriesEx
                   (detect_changepoints seriesEx 5) 3).getD j (0, 0)).1
               p_value :=
                 ((evaluate_changepoints ttEx seriesEx
                   (detect_changepoints seriesEx 5) 3).getD j (0, 0)).2 })) :=
  ⟨rfl, analyze_changepoints_records ttEx seriesEx [seriesEx] 0 seriesEx rfl⟩

/-! ## The detector contract -/

/-- Candidate splits lie strictly inside the series. -/
theorem mem_cands {L k : ℕ} (h : k ∈ cands L) : 2 ≤ k ∧ k + 2 ≤ L ∧ k < L := by
  unfold cands at h
  rw [List.mem_filter] at h
  obtain ⟨hr, hb⟩ := h
  rw [List.mem_range] at hr
  simp only [Bool.and_eq_true, decide_eq_true_eq] at hb
  exact ⟨hb.1, hb.2, hr⟩

/-- The candidate list has no duplicates. -/
theorem cands_nodup (L : ℕ) : (cands L).Nodup :=
  (List.nodup_range L).filter _

/-- Ranking permutes the scored candidates. -/
theorem rankedSplits_perm (s : List ℚ) :
    (rankedSplits s).Perm ((cands s.length).map (fun k => (gain s k, k))) :=
  List.perm_insertionSort _ _

/-- Every ranked pair is a candidate paired with its own score. -/
theorem mem_rankedSplits {s : List ℚ} {p : ℚ × ℕ} (hp : p ∈ rankedSplits s) :
    p.1 = gain s p.2 ∧ p.2 ∈ cands s.length := by
  have hm := (rankedSplits_perm s).mem_iff.mp hp
  rw [List.mem_map] at hm
  obtain ⟨k, hk, he⟩ := hm
  cases he
  exact ⟨rfl, hk⟩

/-- The ranked pair list has no duplicates. -/
theorem rankedSplits_nodup (s : List ℚ) : (rankedSplits s).Nodup := by
  refine ((rankedSplits_perm s).symm).nodup ?_
  refine List.Nodup.map_on ?_ (cands_nodup s.length)
  intro x _ y _ hxy
  exact congrArg Prod.snd hxy

/-- The selected top-K indices are pairwise distinct. -/
theorem topSplits_nodup (s : List ℚ) (K : ℕ) : (topSplits s K).Nodup := by
  unfold topSplits
  refine List.Nodup.map_on ?_
    ((List.drop_sublist _ _).nodup (rankedSplits_nodup s))
  intro x hx y hy hxy
  have hx2 := mem_rankedSplits (List.Sublist.mem hx (List.drop_sublist _ _))
  have hy2 := mem_rankedSplits (List.Sublist.mem hy (List.drop_sublist _ _))
  exact Prod.ext (by rw [hx2.1, hy2.1, hxy]) hxy

/-- The selected top-K indices are candidates. -/
theorem topSplits_mem {s : List ℚ} {K k : ℕ} (hk : k ∈ topSplits s K) :
    k ∈ cands s.length := by
  unfold topSplits at hk
  rw [List.mem_map] at hk
  obtain ⟨p, hp, he⟩ := hk
  rw [← he]
  exact (mem_rankedSplits (List.Sublist.mem hp (List.drop_sublist _ _))).2

/-- When `K` candidates exist, exactly `K` splits are selected. -/
theorem topSplits_length (s : List ℚ) (K : ℕ)
    (hK : K ≤ (cands s.length).length) : (topSplits s K).length = K := by
  unfold topSplits
  rw [List.length_map, List.length_drop]
  have : (rankedSplits s).length = (cands s.length).length := by
    rw [(rankedSplits_perm s).length_eq, List.length_map]
  omega

/-- C1: for a feasible requested count `K` (at most the number of
candidate splits of the series), `detect_changepoints` returns exactly `K`
strictly increasing indices, each in `[0, L)`, and the result is obtained
by dropping the terminal split equal to the series length from the
window detection result. -/
theorem detect_changepoints_contract (s : List ℚ) (K : ℕ)
    (hK : K ≤ (cands s.length).length) :
    (detect_changepoints s K).length = K ∧
    (detect_changepoints s K).Sorted (· < ·) ∧
    (∀ x ∈ detect_changepoints s K, x < s.length) ∧
    detect_changepoints s K ++ [s.length] = window_predict s K := by
  have hdrop : detect_changepoints s K =
      List.insertionSort (· ≤ ·) (topSplits s K) := by
    unfold detect_changepoints window_predict
    exact List.dropLast_concat
  have hperm : (List.insertionSort (· ≤ ·) (topSplits s K)).Perm
      (topSplits s K) := List.perm_insertionSort _ _
  refine ⟨?_, ?_, ?_, ?_⟩
  · rw [hdrop, hperm.length_eq, topSplits_length s K hK]
  · rw [hdrop]
    have hsorted : (List.insertionSort (· ≤ ·) (topSplits s K)).Sorted (· ≤ ·) :=
      List.sorted_insertionSort _ _
    have hnd : (List.insertionSort (· ≤ ·) (topSplits s K)).Nodup :=
      (hperm.symm).nodup (topSplits_nodup s K)
    exact List.Pairwise.imp₂ (fun a b h1 h2 => lt_of_le_of_ne h1 h2) hsorted hnd
  · intro x hx
    rw [hdrop] at hx
    exact (mem_cands (topSplits_mem (hperm.mem_iff.mp hx))).2.2
  · rw [hdrop]
    rfl

/-- Witness for `detect_changepoints_contract`: the default `K = 5` is
feasible on the level-shift series of length 10. -/
theorem detect_changepoints_contract_witness :
    5 ≤ (cands seriesEx.length).length ∧
    ((detect_changepoints seriesEx 5).length = 5 ∧
    (detect_changepoints seriesEx 5).Sorted (· < ·) ∧
    (∀ x ∈ detect_changepoints seriesEx 5, x < seriesEx.length) ∧
    detect_changepoints seriesEx 5 ++ [seriesEx.length] =
      window_predict seriesEx 5) :=
  ⟨by decide, detect_changepoints_contract seriesEx 5 (by decide)⟩

end ChangepointAnalysis
